import Mathlib

/-!
Verification of the isometric camera, entity registry and character
movement state machine of the atlas-town frontend.

The definitions below are shallow embeddings of the TypeScript sources:

* `IsometricCamera` (grid/screen transforms, offsets, depth),
* `EntityManager` (registry with replace-on-duplicate and nearest query),
* `Character` (movement tween, facing direction, walking frames,
  completion promises).

JavaScript numbers are embedded as `ℚ` where the code only uses field
operations, `floor` and `%`, and as `ℝ` where `Math.sqrt` or `Math.atan2`
appear.  `Math.floor` is `Int.floor`, the JavaScript float remainder
`a % b` is `jsFmod` (truncated remainder), and `Math.round` is Mathlib's
`round` (both round half toward positive infinity).
-/

/-! ## Camera: constants (constants.ts) -/

def ISO_TILE_WIDTH : ℚ := 64

def ISO_TILE_HEIGHT : ℚ := 32

def ISO_TILE_HALF_WIDTH : ℚ := ISO_TILE_WIDTH / 2

def ISO_TILE_HALF_HEIGHT : ℚ := ISO_TILE_HEIGHT / 2

def LEGACY_TILE_SIZE : ℚ := 32

/-- The grid dimensions from constants.ts (`GRID_WIDTH = 28`, `GRID_HEIGHT = 36`). -/
def GRID_WIDTH : ℤ := 28

def GRID_HEIGHT : ℤ := 36

def CANVAS_WIDTH : ℚ := 1200

def CANVAS_HEIGHT : ℚ := 700

/-- Truncation toward zero, as JavaScript float remainder uses. -/
def qtrunc (x : ℚ) : ℤ := if 0 ≤ x then ⌊x⌋ else ⌈x⌉

/-- JavaScript float remainder `a % b` on rationals (sign follows the dividend). -/
def jsFmod (a b : ℚ) : ℚ := a - b * (qtrunc (a / b) : ℚ)

/-! ## Camera: data model (IsometricCamera.ts)

The source selects the projection by two module constants,
`ISOMETRIC_MODE : boolean` and `ISOMETRIC_TYPE : "diamond" | "staggered"`.
The three reachable combinations are embedded as a three-valued mode:
`ISOMETRIC_MODE = false` is `orthogonal`, otherwise the type picks
`diamond` or `staggered`.  The camera is embedded per instance with the
mode as a field. -/

inductive ProjMode where
  | orthogonal
  | diamond
  | staggered
deriving DecidableEq

structure Point where
  x : ℚ
  y : ℚ
deriving DecidableEq

structure GridPosition where
  gridX : ℤ
  gridY : ℤ
deriving DecidableEq

structure ScreenBounds where
  width : ℚ
  height : ℚ
  offsetX : ℚ
  offsetY : ℚ
deriving DecidableEq

/-- Camera state: grid/canvas dimensions and the pan position `_position`.
A freshly constructed camera has `_position = (0, 0)` (its default). -/
structure Camera where
  mode : ProjMode
  gridWidth : ℤ
  gridHeight : ℤ
  canvasWidth : ℚ
  canvasHeight : ℚ
  posX : ℚ
  posY : ℚ
deriving DecidableEq

namespace Camera

/-- Shallow embedding of `IsometricCamera.getScreenBounds`. -/
def getScreenBounds (c : Camera) : ScreenBounds :=
  match c.mode with
  | .orthogonal =>
      { width := (c.gridWidth : ℚ) * LEGACY_TILE_SIZE
        height := (c.gridHeight : ℚ) * LEGACY_TILE_SIZE
        offsetX := 0, offsetY := 0 }
  | .staggered =>
      { width := (c.gridWidth : ℚ) * ISO_TILE_WIDTH + ISO_TILE_HALF_WIDTH
        height := ((c.gridHeight : ℚ) + 1) * ISO_TILE_HALF_HEIGHT
        offsetX := 0, offsetY := 0 }
  | .diamond =>
      { width := ((c.gridWidth : ℚ) + (c.gridHeight : ℚ)) * ISO_TILE_HALF_WIDTH
        height := ((c.gridWidth : ℚ) + (c.gridHeight : ℚ)) * ISO_TILE_HALF_HEIGHT
        offsetX := (c.gridHeight : ℚ) * ISO_TILE_HALF_WIDTH
        offsetY := 0 }

/-- Shallow embedding of the `offsetX` getter. -/
def offsetX (c : Camera) : ℚ :=
  match c.mode with
  | .orthogonal => -c.posX
  | .staggered => (c.canvasWidth - (getScreenBounds c).width) / 2 - c.posX
  | .diamond =>
      (getScreenBounds c).offsetX + c.canvasWidth / 2 - (getScreenBounds c).width / 2 - c.posX

/-- Shallow embedding of the `offsetY` getter. -/
def offsetY (c : Camera) : ℚ :=
  match c.mode with
  | .orthogonal => -c.posY
  | .staggered => 10 - c.posY
  | .diamond => -20 - c.posY

/-- Shallow embedding of `IsometricCamera.gridToScreen` (inputs are
JavaScript numbers, hence `ℚ`; `(gridY % 2)` is the float remainder). -/
def gridToScreen (c : Camera) (gridX gridY : ℚ) : Point :=
  match c.mode with
  | .orthogonal =>
      { x := gridX * LEGACY_TILE_SIZE + offsetX c
        y := gridY * LEGACY_TILE_SIZE + offsetY c }
  | .staggered =>
      let rowOffset := jsFmod gridY 2 * ISO_TILE_HALF_WIDTH
      { x := gridX * ISO_TILE_WIDTH + rowOffset + ISO_TILE_HALF_WIDTH + offsetX c
        y := gridY * ISO_TILE_HALF_HEIGHT + ISO_TILE_HALF_HEIGHT + offsetY c }
  | .diamond =>
      { x := (gridX - gridY) * ISO_TILE_HALF_WIDTH + offsetX c
        y := (gridX + gridY) * ISO_TILE_HALF_HEIGHT + offsetY c }

/-- Shallow embedding of `IsometricCamera.screenToGrid`.  In the staggered
branch `gridY = Math.max(0, approxY)` is a nonnegative integer, so the
JavaScript `gridY % 2` agrees with the integer remainder `% 2`. -/
def screenToGrid (c : Camera) (screenX screenY : ℚ) : GridPosition :=
  match c.mode with
  | .orthogonal =>
      { gridX := ⌊(screenX - offsetX c) / LEGACY_TILE_SIZE⌋
        gridY := ⌊(screenY - offsetY c) / LEGACY_TILE_SIZE⌋ }
  | .staggered =>
      let relX := screenX - offsetX c
      let relY := screenY - offsetY c
      let approxY := ⌊(relY - ISO_TILE_HALF_HEIGHT) / ISO_TILE_HALF_HEIGHT⌋
      let gridY := max 0 approxY
      let rowOffset := ((gridY % 2 : ℤ) : ℚ) * ISO_TILE_HALF_WIDTH
      let gridX := ⌊(relX - rowOffset - ISO_TILE_HALF_WIDTH) / ISO_TILE_WIDTH⌋
      { gridX := max 0 gridX, gridY := gridY }
  | .diamond =>
      let relX := screenX - offsetX c
      let relY := screenY - offsetY c
      let gx := (relX / ISO_TILE_HALF_WIDTH + relY / ISO_TILE_HALF_HEIGHT) / 2
      let gy := (relY / ISO_TILE_HALF_HEIGHT - relX / ISO_TILE_HALF_WIDTH) / 2
      { gridX := ⌊gx⌋, gridY := ⌊gy⌋ }

/-- Shallow embedding of `IsometricCamera.calculateDepth`:
`gridY` when not in isometric mode, `gridX + gridY` otherwise. -/
def calculateDepth (c : Camera) (gridX gridY : ℚ) : ℚ :=
  match c.mode with
  | .orthogonal => gridY
  | _ => gridX + gridY

end Camera

/-! ## Helper lemmas for the round trip -/

lemma qtrunc_of_nonneg {x : ℚ} (h : 0 ≤ x) : qtrunc x = ⌊x⌋ := by
  simp [qtrunc, h]

/-- The JavaScript remainder of a nonnegative integer by 2 is the integer
remainder. -/
lemma jsFmod_intCast_two (m : ℤ) (hm : 0 ≤ m) :
    jsFmod (m : ℚ) 2 = ((m % 2 : ℤ) : ℚ) := by
  rcases Int.even_or_odd m with ⟨k, hk⟩ | ⟨k, hk⟩
  · subst hk
    have hq : ((k + k : ℤ) : ℚ) / 2 = (k : ℚ) := by push_cast; ring
    have ht : qtrunc (((k + k : ℤ) : ℚ) / 2) = k := by
      rw [hq]
      rcases le_or_lt 0 (k : ℚ) with h0 | h0
      · rw [qtrunc_of_nonneg h0, Int.floor_intCast]
      · simp [qtrunc, not_le.mpr h0, Int.ceil_intCast]
    have hmod : (k + k) % 2 = 0 := by omega
    rw [jsFmod, ht, hmod]
    push_cast
    ring
  · subst hk
    have hk0 : 0 ≤ k := by omega
    have hq : ((2 * k + 1 : ℤ) : ℚ) / 2 = (k : ℚ) + 1 / 2 := by push_cast; ring
    have hfl : ⌊(k : ℚ) + 1 / 2⌋ = k := by
      rw [Int.floor_eq_iff]
      constructor
      · norm_num
      · norm_num
    have ht : qtrunc (((2 * k + 1 : ℤ) : ℚ) / 2) = k := by
      rw [hq, qtrunc_of_nonneg (by positivity), hfl]
    have hmod : (2 * k + 1) % 2 = 1 := by omega
    rw [jsFmod, ht, hmod]
    push_cast
    ring

/-! ## C1: round trip of the projection -/

/-- C1: for the diamond and staggered projection modes and every integer
grid position inside the grid bounds, `screenToGrid` inverts
`gridToScreen` exactly, for a camera at its default position. -/
theorem C1_screenToGrid_gridToScreen_roundTrip (c : Camera) (gx gy : ℤ)
    (hmode : c.mode = .diamond ∨ c.mode = .staggered)
    (hposx : c.posX = 0) (hposy : c.posY = 0)
    (hx0 : 0 ≤ gx) (hx1 : gx < c.gridWidth)
    (hy0 : 0 ≤ gy) (hy1 : gy < c.gridHeight) :
    Camera.screenToGrid c (Camera.gridToScreen c (gx : ℚ) (gy : ℚ)).x
      (Camera.gridToScreen c (gx : ℚ) (gy : ℚ)).y = ⟨gx, gy⟩ := by
  rcases hmode with hmode | hmode
  · -- diamond: the inverse formulas recover the coordinates exactly.
    have hW : ISO_TILE_HALF_WIDTH ≠ 0 := by norm_num [ISO_TILE_HALF_WIDTH, ISO_TILE_WIDTH]
    have hH : ISO_TILE_HALF_HEIGHT ≠ 0 := by norm_num [ISO_TILE_HALF_HEIGHT, ISO_TILE_HEIGHT]
    simp only [Camera.gridToScreen, Camera.screenToGrid, hmode]
    have hgx : (((gx : ℚ) - (gy : ℚ)) * ISO_TILE_HALF_WIDTH + Camera.offsetX c -
        Camera.offsetX c) / ISO_TILE_HALF_WIDTH = (gx : ℚ) - (gy : ℚ) := by
      field_simp
    have hgy : (((gx : ℚ) + (gy : ℚ)) * ISO_TILE_HALF_HEIGHT + Camera.offsetY c -
        Camera.offsetY c) / ISO_TILE_HALF_HEIGHT = (gx : ℚ) + (gy : ℚ) := by
      field_simp
    rw [hgx, hgy]
    have e1 : (((gx : ℚ) - (gy : ℚ)) + ((gx : ℚ) + (gy : ℚ))) / 2 = (gx : ℚ) := by ring
    have e2 : (((gx : ℚ) + (gy : ℚ)) - ((gx : ℚ) - (gy : ℚ))) / 2 = (gy : ℚ) := by ring
    rw [e1, e2, Int.floor_intCast, Int.floor_intCast]
  · -- staggered: the row offset cancels and the floors are exact.
    simp only [Camera.gridToScreen, Camera.screenToGrid, hmode]
    have h16 : ISO_TILE_HALF_HEIGHT = 16 := by norm_num [ISO_TILE_HALF_HEIGHT, ISO_TILE_HEIGHT]
    have h32 : ISO_TILE_HALF_WIDTH = 32 := by norm_num [ISO_TILE_HALF_WIDTH, ISO_TILE_WIDTH]
    have h64 : ISO_TILE_WIDTH = 64 := by norm_num [ISO_TILE_WIDTH]
    have hrow : jsFmod (gy : ℚ) 2 = ((gy % 2 : ℤ) : ℚ) := jsFmod_intCast_two gy hy0
    have hy : ((gy : ℚ) * ISO_TILE_HALF_HEIGHT + ISO_TILE_HALF_HEIGHT + Camera.offsetY c -
        Camera.offsetY c - ISO_TILE_HALF_HEIGHT) / ISO_TILE_HALF_HEIGHT = (gy : ℚ) := by
      rw [h16]; ring
    rw [hy, Int.floor_intCast]
    have hgy : max 0 gy = gy := max_eq_right hy0
    rw [hgy, ← hrow]
    have hx : ((gx : ℚ) * ISO_TILE_WIDTH + jsFmod (gy : ℚ) 2 * ISO_TILE_HALF_WIDTH +
        ISO_TILE_HALF_WIDTH + Camera.offsetX c - Camera.offsetX c -
        jsFmod (gy : ℚ) 2 * ISO_TILE_HALF_WIDTH - ISO_TILE_HALF_WIDTH) / ISO_TILE_WIDTH
        = (gx : ℚ) := by
      rw [h64]; ring
    rw [hx, Int.floor_intCast]
    have hgx : max 0 gx = gx := max_eq_right hx0
    rw [hgx]

/-- C1 witness: a staggered camera with the repository's dimensions at its
default position round-trips the grid position (5, 18). -/
theorem C1_witness :
    (0 ≤ (5 : ℤ) ∧ (5 : ℤ) < GRID_WIDTH ∧ 0 ≤ (18 : ℤ) ∧ (18 : ℤ) < GRID_HEIGHT) ∧
    Camera.screenToGrid
      { mode := .staggered, gridWidth := GRID_WIDTH, gridHeight := GRID_HEIGHT,
        canvasWidth := CANVAS_WIDTH, canvasHeight := CANVAS_HEIGHT, posX := 0, posY := 0 }
      (Camera.gridToScreen
        { mode := .staggered, gridWidth := GRID_WIDTH, gridHeight := GRID_HEIGHT,
          canvasWidth := CANVAS_WIDTH, canvasHeight := CANVAS_HEIGHT, posX := 0, posY := 0 }
        ((5 : ℤ) : ℚ) ((18 : ℤ) : ℚ)).x
      (Camera.gridToScreen
        { mode := .staggered, gridWidth := GRID_WIDTH, gridHeight := GRID_HEIGHT,
          canvasWidth := CANVAS_WIDTH, canvasHeight := CANVAS_HEIGHT, posX := 0, posY := 0 }
        ((5 : ℤ) : ℚ) ((18 : ℤ) : ℚ)).y = ⟨5, 18⟩ :=
  ⟨by decide,
    C1_screenToGrid_gridToScreen_roundTrip _ 5 18 (Or.inr rfl) rfl rfl
      (by decide) (by decide) (by decide) (by decide)⟩

/-! ## C9: depth monotonicity -/

/-- C9: `calculateDepth` is monotone toward the lower right of the grid in
every projection mode: componentwise larger grid coordinates give depth at
least as large. -/
theorem C9_calculateDepth_monotone (c : Camera) (gx1 gy1 gx2 gy2 : ℚ)
    (hx : gx1 ≤ gx2) (hy : gy1 ≤ gy2) :
    Camera.calculateDepth c gx1 gy1 ≤ Camera.calculateDepth c gx2 gy2 := by
  rcases c with ⟨mode, _, _, _, _, _, _⟩
  cases mode <;> simp only [Camera.calculateDepth] <;> linarith

/-- C9 witness: in diamond mode the entity at grid (2, 2) has depth at
least that of the entity at (1, 1). -/
theorem C9_witness :
    (1 : ℚ) ≤ 2 ∧
    Camera.calculateDepth
      { mode := .diamond, gridWidth := GRID_WIDTH, gridHeight := GRID_HEIGHT,
        canvasWidth := CANVAS_WIDTH, canvasHeight := CANVAS_HEIGHT, posX := 0, posY := 0 }
      1 1 ≤
    Camera.calculateDepth
      { mode := .diamond, gridWidth := GRID_WIDTH, gridHeight := GRID_HEIGHT,
        canvasWidth := CANVAS_WIDTH, canvasHeight := CANVAS_HEIGHT, posX := 0, posY := 0 }
      2 2 :=
  ⟨by norm_num, C9_calculateDepth_monotone _ 1 1 2 2 (by norm_num) (by norm_num)⟩

/-! ## C10: the staggered inverse clamps at zero -/

/-- C10: in staggered mode `screenToGrid` never returns a negative
coordinate; negative intermediate results are clamped to 0. -/
theorem C10_screenToGrid_staggered_nonneg (c : Camera) (hmode : c.mode = .staggered)
    (x y : ℚ) :
    0 ≤ (Camera.screenToGrid c x y).gridX ∧ 0 ≤ (Camera.screenToGrid c x y).gridY := by
  simp only [Camera.screenToGrid, hmode]
  exact ⟨le_max_left _ _, le_max_left _ _⟩

/-- C10 witness: a screen point far above and to the left of the staggered
grid maps to nonnegative grid coordinates. -/
theorem C10_witness :
    0 ≤ (Camera.screenToGrid
      { mode := .staggered, gridWidth := GRID_WIDTH, gridHeight := GRID_HEIGHT,
        canvasWidth := CANVAS_WIDTH, canvasHeight := CANVAS_HEIGHT, posX := 0, posY := 0 }
      (-1000) (-1000)).gridX ∧
    0 ≤ (Camera.screenToGrid
      { mode := .staggered, gridWidth := GRID_WIDTH, gridHeight := GRID_HEIGHT,
        canvasWidth := CANVAS_WIDTH, canvasHeight := CANVAS_HEIGHT, posX := 0, posY := 0 }
      (-1000) (-1000)).gridY :=
  C10_screenToGrid_staggered_nonneg _ rfl (-1000) (-1000)

/-! ## EntityManager (EntityManager.ts)

Entities are embedded as records of the fields the registry and its
queries read (`id`, `name`, grid coordinates).  The JavaScript `Map` keyed
by id is embedded as an insertion-ordered list whose ids are unique;
`Map.delete` removes the unique entry with the key (`List.eraseP`) and
`Map.set` of a fresh key appends.  The render container mirrors the
registry (every add/remove updates both in lockstep), so detaching is
expressed as removal from the registry list.  A `console.warn` is counted
in `warnings`. -/

structure IsoEntity where
  id : String
  name : String
  gridX : ℚ
  gridY : ℚ
deriving DecidableEq

structure EntityManager where
  entities : List IsoEntity
  warnings : ℕ
deriving DecidableEq

namespace EntityManager

/-- Shallow embedding of `EntityManager.remove` (drops the unique entry
with the id, if present). -/
def removeEntity (em : EntityManager) (id : String) : EntityManager :=
  { em with entities := em.entities.eraseP (fun x => x.id == id) }

/-- Shallow embedding of `EntityManager.add`: on a duplicate id the old
entity is removed first (with a warning), then the new one is appended. -/
def addEntity (em : EntityManager) (e : IsoEntity) : EntityManager :=
  if em.entities.any (fun x => x.id == e.id) then
    let em1 := removeEntity { em with warnings := em.warnings + 1 } e.id
    { em1 with entities := em1.entities ++ [e] }
  else
    { em with entities := em.entities ++ [e] }

end EntityManager

/-! ## Helper lemmas for the registry -/

lemma eraseP_filter_id_eq_nil (l : List IsoEntity) (k : String)
    (h : (l.map IsoEntity.id).Nodup) :
    (l.eraseP (fun x => x.id == k)).filter (fun x => x.id == k) = [] := by
  induction l with
  | nil => simp
  | cons a l ih =>
    rw [List.map_cons, List.nodup_cons] at h
    by_cases ha : a.id = k
    · rw [List.eraseP_cons_of_pos (by simp [ha])]
      rw [List.filter_eq_nil_iff]
      intro x hx
      simp only [beq_iff_eq]
      intro hxk
      exact h.1 (by rw [← ha] at hxk; exact hxk ▸ List.mem_map_of_mem IsoEntity.id hx)
    · rw [List.eraseP_cons_of_neg (by simp [ha])]
      rw [List.filter_cons_of_neg (by simp [ha])]
      exact ih h.2

lemma eraseP_filter_ne (l : List IsoEntity) (k : String) :
    (l.eraseP (fun x => x.id == k)).filter (fun x => !(x.id == k)) =
      l.filter (fun x => !(x.id == k)) := by
  induction l with
  | nil => simp
  | cons a l ih =>
    by_cases ha : a.id = k
    · rw [List.eraseP_cons_of_pos (by simp [ha])]
      rw [List.filter_cons_of_neg (by simp [ha])]
    · rw [List.eraseP_cons_of_neg (by simp [ha])]
      rw [List.filter_cons_of_pos (by simp [ha]), List.filter_cons_of_pos (by simp [ha]), ih]

lemma not_mem_eraseP_of_unique_id (l : List IsoEntity) (k : String)
    (h : (l.map IsoEntity.id).Nodup) (old : IsoEntity)
    (hold : old ∈ l) (hk : old.id = k) :
    old ∉ l.eraseP (fun x => x.id == k) := by
  induction l with
  | nil => simp at hold
  | cons a l ih =>
    rw [List.map_cons, List.nodup_cons] at h
    by_cases ha : a.id = k
    · rw [List.eraseP_cons_of_pos (by simp [ha])]
      intro hmem
      exact h.1 (by
        rw [ha, ← hk]
        exact List.mem_map_of_mem IsoEntity.id hmem)
    · rw [List.eraseP_cons_of_neg (by simp [ha])]
      have hne : old ≠ a := by
        intro he
        exact ha (by rw [← he, hk])
      intro hmem
      rcases List.mem_cons.mp hmem with he | hmem2
      · exact hne he
      · exact ih h.2 (by
          rcases List.mem_cons.mp hold with he | h2
          · exact absurd he hne
          · exact h2) hmem2

/-! ## C7: registry replace on duplicate id -/

/-- C7: adding an entity whose id is already registered leaves exactly one
entity under that id (the new one), leaves entities with other ids
unchanged, emits a warning, and the old entity is detached from the
registry. -/
theorem C7_add_replaces_duplicate (em : EntityManager) (e old : IsoEntity)
    (hnodup : (em.entities.map IsoEntity.id).Nodup)
    (hold : old ∈ em.entities) (hid : old.id = e.id) :
    (EntityManager.addEntity em e).entities.filter (fun x => x.id == e.id) = [e] ∧
    (EntityManager.addEntity em e).entities.filter (fun x => !(x.id == e.id)) =
      em.entities.filter (fun x => !(x.id == e.id)) ∧
    (EntityManager.addEntity em e).warnings = em.warnings + 1 ∧
    (old ≠ e → old ∉ (EntityManager.addEntity em e).entities) := by
  have hany : em.entities.any (fun x => x.id == e.id) = true := by
    rw [List.any_eq_true]
    exact ⟨old, hold, by simp [hid]⟩
  simp only [EntityManager.addEntity, EntityManager.removeEntity, hany, if_true]
  refine ⟨?_, ?_, by trivial, ?_⟩
  · rw [List.filter_append, eraseP_filter_id_eq_nil _ _ hnodup]
    simp
  · rw [List.filter_append]
    have : ([e].filter (fun x => !(x.id == e.id))) = [] := by simp
    rw [this, List.append_nil, eraseP_filter_ne]
  · intro hne hmem
    rcases List.mem_append.mp hmem with h1 | h2
    · exact not_mem_eraseP_of_unique_id _ _ hnodup old hold hid h1
    · exact hne (by simpa using h2)

/-- C7 witness: adding a second entity with id "a" replaces the first,
leaving exactly the new one, preserving other-id entities, and warning. -/
theorem C7_witness :
    ((([{ id := "a", name := "old", gridX := 0, gridY := 0 }] :
        List IsoEntity).map IsoEntity.id).Nodup ∧
      ({ id := "a", name := "old", gridX := 0, gridY := 0 } : IsoEntity) ∈
        ([{ id := "a", name := "old", gridX := 0, gridY := 0 }] : List IsoEntity)) ∧
    ((EntityManager.addEntity
        { entities := [{ id := "a", name := "old", gridX := 0, gridY := 0 }], warnings := 0 }
        { id := "a", name := "new", gridX := 1, gridY := 0 }).entities.filter
      (fun x => x.id == "a") = [{ id := "a", name := "new", gridX := 1, gridY := 0 }] ∧
    (EntityManager.addEntity
        { entities := [{ id := "a", name := "old", gridX := 0, gridY := 0 }], warnings := 0 }
        { id := "a", name := "new", gridX := 1, gridY := 0 }).entities.filter
      (fun x => !(x.id == "a")) =
      ([{ id := "a", name := "old", gridX := 0, gridY := 0 }] : List IsoEntity).filter
        (fun x => !(x.id == "a")) ∧
    (EntityManager.addEntity
        { entities := [{ id := "a", name := "old", gridX := 0, gridY := 0 }], warnings := 0 }
        { id := "a", name := "new", gridX := 1, gridY := 0 }).warnings = 0 + 1 ∧
    (({ id := "a", name := "old", gridX := 0, gridY := 0 } : IsoEntity) ≠
        { id := "a", name := "new", gridX := 1, gridY := 0 } →
      ({ id := "a", name := "old", gridX := 0, gridY := 0 } : IsoEntity) ∉
        (EntityManager.addEntity
          { entities := [{ id := "a", name := "old", gridX := 0, gridY := 0 }], warnings := 0 }
          { id := "a", name := "new", gridX := 1, gridY := 0 }).entities)) :=
  ⟨⟨by decide, by decide⟩,
    C7_add_replaces_duplicate
      { entities := [{ id := "a", name := "old", gridX := 0, gridY := 0 }], warnings := 0 }
      { id := "a", name := "new", gridX := 1, gridY := 0 }
      { id := "a", name := "old", gridX := 0, gridY := 0 }
      (by decide) (by decide) (by decide)⟩

/-! ## getNearest (EntityManager.getNearest)

The source folds over the entities of the `Map` in insertion order with
`nearestDistance` starting at `Infinity` and updating on a strict `<`.
`Infinity` is embedded as `⊤ : EReal` and the fold as `getNearestGo`. -/

/-- Euclidean distance in grid units from the query point to an entity,
exactly as the source computes it (`Math.sqrt(dx*dx + dy*dy)`). -/
noncomputable def entityDistance (gx gy : ℚ) (e : IsoEntity) : ℝ :=
  let dx : ℝ := (e.gridX : ℝ) - (gx : ℝ)
  let dy : ℝ := (e.gridY : ℝ) - (gy : ℝ)
  Real.sqrt (dx * dx + dy * dy)

/-- The fold inside `EntityManager.getNearest`: scans entities in
insertion order, replacing the best candidate on a strictly smaller
distance. -/
noncomputable def getNearestGo (gx gy : ℚ) :
    List IsoEntity → Option IsoEntity → EReal → Option IsoEntity
  | [], best, _ => best
  | e :: rest, best, bestD =>
      if ((entityDistance gx gy e : ℝ) : EReal) < bestD then
        getNearestGo gx gy rest (some e) ((entityDistance gx gy e : ℝ) : EReal)
      else
        getNearestGo gx gy rest best bestD

/-- Shallow embedding of `EntityManager.getNearest`. -/
noncomputable def EntityManager.getNearest (em : EntityManager) (gx gy : ℚ) :
    Option IsoEntity :=
  getNearestGo gx gy em.entities none ⊤

/-- Invariant of the fold: starting from a candidate `b`, the result is
the first element of `b :: l` attaining the minimal distance. -/
lemma getNearestGo_spec (gx gy : ℚ) (l : List IsoEntity) :
    ∀ b : IsoEntity,
      ∃ r l₁ l₂,
        getNearestGo gx gy l (some b) ((entityDistance gx gy b : ℝ) : EReal) = some r ∧
        b :: l = l₁ ++ r :: l₂ ∧
        (∀ e ∈ b :: l, entityDistance gx gy r ≤ entityDistance gx gy e) ∧
        (∀ e ∈ l₁, entityDistance gx gy r < entityDistance gx gy e) := by
  induction l with
  | nil =>
      intro b
      refine ⟨b, [], [], rfl, rfl, ?_, by simp⟩
      intro e he
      rw [List.mem_singleton] at he
      subst he
      exact le_refl _
  | cons a rest ih =>
      intro b
      by_cases hab : entityDistance gx gy a < entityDistance gx gy b
      · have hlt : ((entityDistance gx gy a : ℝ) : EReal) <
            ((entityDistance gx gy b : ℝ) : EReal) := EReal.coe_lt_coe_iff.mpr hab
        rw [getNearestGo, if_pos hlt]
        obtain ⟨r, l₁, l₂, hrun, hdec, hle, hstrict⟩ := ih a
        refine ⟨r, b :: l₁, l₂, hrun, ?_, ?_, ?_⟩
        · rw [List.cons_append, ← hdec]
        · intro e he
          rcases List.mem_cons.mp he with he | he
          · subst he
            exact le_of_lt (lt_of_le_of_lt (hle a (List.mem_cons_self a rest)) hab)
          · exact hle e he
        · intro e he
          rcases List.mem_cons.mp he with he | he
          · subst he
            exact lt_of_le_of_lt (hle a (List.mem_cons_self a rest)) hab
          · exact hstrict e he
      · have hnlt : ¬ ((entityDistance gx gy a : ℝ) : EReal) <
            ((entityDistance gx gy b : ℝ) : EReal) := fun hc =>
          hab (EReal.coe_lt_coe_iff.mp hc)
        have hba : entityDistance gx gy b ≤ entityDistance gx gy a := le_of_not_lt hab
        rw [getNearestGo, if_neg hnlt]
        obtain ⟨r, l₁, l₂, hrun, hdec, hle, hstrict⟩ := ih b
        cases l₁ with
        | nil =>
            simp only [List.nil_append, List.cons.injEq] at hdec
            obtain ⟨hbr, hl₂⟩ := hdec
            refine ⟨r, [], a :: rest, hrun, by rw [List.nil_append, hbr], ?_, by simp⟩
            intro e he
            rcases List.mem_cons.mp he with he | he
            · rw [he]
              exact hle b (List.mem_cons_self b rest)
            · rcases List.mem_cons.mp he with he | he
              · rw [he]
                exact le_trans (hle b (List.mem_cons_self b rest)) hba
              · exact hle e (List.mem_cons_of_mem b he)
        | cons x l₁t =>
            rw [List.cons_append] at hdec
            simp only [List.cons.injEq] at hdec
            obtain ⟨hbx, hrest⟩ := hdec
            have hrb : entityDistance gx gy r < entityDistance gx gy b := by
              have hx := hstrict x (List.mem_cons_self x l₁t)
              rwa [← hbx] at hx
            refine ⟨r, b :: a :: l₁t, l₂, hrun, ?_, ?_, ?_⟩
            · rw [hrest]
              simp
            · intro e he
              rcases List.mem_cons.mp he with he | he
              · rw [he]
                exact hle b (List.mem_cons_self b rest)
              · rcases List.mem_cons.mp he with he | he
                · rw [he]
                  exact le_trans (le_of_lt hrb) hba
                · exact hle e (List.mem_cons_of_mem b he)
            · intro e he
              rcases List.mem_cons.mp he with he | he
              · rw [he]
                exact hrb
              · rcases List.mem_cons.mp he with he | he
                · rw [he]
                  exact lt_of_lt_of_le hrb hba
                · exact hstrict e (List.mem_cons_of_mem x he)

/-! ## C8: nearest entity with first-inserted tie-break -/

/-- C8: on a non-empty registry, `getNearest` returns an entity that
minimizes the Euclidean distance in grid units, and every entity inserted
strictly before it has strictly larger distance — so among equidistant
minimizers the first-inserted one wins. -/
theorem C8_getNearest_min_firstInserted (em : EntityManager) (gx gy : ℚ)
    (h : em.entities ≠ []) :
    ∃ r l₁ l₂,
      EntityManager.getNearest em gx gy = some r ∧
      em.entities = l₁ ++ r :: l₂ ∧
      (∀ e ∈ em.entities, entityDistance gx gy r ≤ entityDistance gx gy e) ∧
      (∀ e ∈ l₁, entityDistance gx gy r < entityDistance gx gy e) := by
  obtain ⟨a, rest, hal⟩ := List.exists_cons_of_ne_nil h
  have htop : ((entityDistance gx gy a : ℝ) : EReal) < ⊤ := EReal.coe_lt_top _
  obtain ⟨r, l₁, l₂, hrun, hdec, hle, hstrict⟩ := getNearestGo_spec gx gy rest a
  refine ⟨r, l₁, l₂, ?_, ?_, ?_, hstrict⟩
  · rw [EntityManager.getNearest, hal, getNearestGo, if_pos htop]
    exact hrun
  · rw [hal, hdec]
  · intro e he
    rw [hal] at he
    exact hle e he

/-- C8 witness: two entities equidistant from the query point (1, 0); the
theorem applies to the concrete two-element registry. -/
theorem C8_witness :
    ([{ id := "a", name := "a", gridX := 0, gridY := 0 },
      { id := "b", name := "b", gridX := 2, gridY := 0 }] : List IsoEntity) ≠ [] ∧
    ∃ r l₁ l₂,
      EntityManager.getNearest
        { entities := [{ id := "a", name := "a", gridX := 0, gridY := 0 },
                       { id := "b", name := "b", gridX := 2, gridY := 0 }],
          warnings := 0 } 1 0 = some r ∧
      ([{ id := "a", name := "a", gridX := 0, gridY := 0 },
        { id := "b", name := "b", gridX := 2, gridY := 0 }] : List IsoEntity) =
        l₁ ++ r :: l₂ ∧
      (∀ e ∈ ([{ id := "a", name := "a", gridX := 0, gridY := 0 },
               { id := "b", name := "b", gridX := 2, gridY := 0 }] : List IsoEntity),
        entityDistance 1 0 r ≤ entityDistance 1 0 e) ∧
      (∀ e ∈ l₁, entityDistance 1 0 r < entityDistance 1 0 e) :=
  ⟨by decide,
    C8_getNearest_min_firstInserted
      { entities := [{ id := "a", name := "a", gridX := 0, gridY := 0 },
                     { id := "b", name := "b", gridX := 2, gridY := 0 }],
        warnings := 0 } 1 0 (by decide)⟩

/-! ## Character (Character.ts, isometric.ts)

The character movement and animation state machine.  Screen positions,
durations and times are `ℝ` (the code uses `Math.sqrt` and `Math.atan2`).
The completion promise of `moveTo` is tracked by a numeric handle:
`moveTo` allocates the handle `nextHandle`, and `resolved` records, in
order, every handle whose promise has been resolved.  Purely visual sprite
state (textures, the bob/breath offsets of `applyAnimations`) is not part
of the machine; every field the movement logic reads or writes is kept.
The module constant `ISOMETRIC_MODE` appears as the parameter `iso`. -/

inductive AnimState where
  | idle
  | walking
  | thinking
  | speaking
deriving DecidableEq

inductive Dir where
  | south
  | north
  | east
  | west
  | southEast
  | southWest
  | northEast
  | northWest
deriving DecidableEq

/-- Truncation toward zero on the reals (JavaScript float remainder
truncates the quotient toward zero). -/
noncomputable def rtrunc (x : ℝ) : ℤ := if 0 ≤ x then ⌊x⌋ else ⌈x⌉

/-- JavaScript float remainder `a % b` on the reals. -/
noncomputable def jsFmodR (a b : ℝ) : ℝ := a - b * (rtrunc (a / b) : ℝ)

/-- JavaScript `Math.atan2(dy, dx)`: the argument of the complex number
`dx + dy i` (both have range `(-pi, pi]` and send `(0, 0)` to `0`). -/
noncomputable def atan2 (dy dx : ℝ) : ℝ := Complex.arg ⟨dx, dy⟩

/-- The direction array of `getDirectionFromDelta`, indexed from east;
an out-of-range index reads `undefined` from the array. -/
def directionMap (i : ℤ) : Option Dir :=
  if i = 0 then some .east
  else if i = 1 then some .southEast
  else if i = 2 then some .south
  else if i = 3 then some .southWest
  else if i = 4 then some .west
  else if i = 5 then some .northWest
  else if i = 6 then some .north
  else if i = 7 then some .northEast
  else none

/-- Shallow embedding of `getDirectionFromDelta` (isometric.ts): the
angle of the movement vector, converted to degrees in `[0, 360)`, is
bucketed with `Math.round(degrees / 45) % 8` to one of 8 compass sectors.
`Math.round` is Mathlib's `round` (half toward positive infinity) and the
JavaScript `%` on these integer values is the truncated remainder. -/
noncomputable def getDirectionFromDelta (dx dy : ℝ) : Option Dir :=
  if dx = 0 ∧ dy = 0 then none
  else
    let angle := atan2 dy dx
    let degrees := jsFmodR (angle * 180 / Real.pi + 360) 360
    let directionIndex := Int.tmod (round (degrees / 45)) 8
    directionMap directionIndex

/-- Shallow embedding of `Character.calculateDirection`. -/
noncomputable def calculateDirection (iso : Bool) (cur : Dir) (dx dy : ℝ) : Dir :=
  if dx = 0 ∧ dy = 0 then cur
  else if iso then
    match getDirectionFromDelta dx dy with
    | some d => d
    | none => cur
  else if |dx| > |dy| then
    (if dx > 0 then .east else .west)
  else
    (if dy > 0 then .south else .north)

/-- The `movement` record of `Character` (tween state).  `resolve` holds
the handle of the pending completion promise, or `none` for the initial
no-op callback slot. -/
structure Movement where
  active : Bool
  startX : ℝ
  startY : ℝ
  targetX : ℝ
  targetY : ℝ
  duration : ℝ
  elapsed : ℝ
  resolve : Option ℕ

/-- The state of one `Character`: animation state, facing direction,
container position and z-index, tween state, walking-frame state, the
animation clock, and the promise-handle bookkeeping. -/
structure CState where
  state : AnimState
  direction : Dir
  x : ℝ
  y : ℝ
  zIndex : ℝ
  movement : Movement
  currentWalkFrame : ℕ
  walkFrameTime : ℝ
  animationTime : ℝ
  usingSpriteSheets : Bool
  nextHandle : ℕ
  resolved : List ℕ

/-- Walking sheets have 4 frames (`WALKING_FRAME_COUNT`). -/
def WALKING_FRAME_COUNT : ℕ := 4

/-- Walking frame cadence in milliseconds (`frameDuration = 150`). -/
def frameDuration : ℝ := 150

/-- Shallow embedding of `IsometricEntity.updateDepth`: the container
z-index is the screen y plus the tile height in isometric mode. -/
noncomputable def updateDepth (iso : Bool) (y : ℝ) : ℝ :=
  if iso then y + ((ISO_TILE_HEIGHT : ℚ) : ℝ) else y

/-- Shallow embedding of `Character.moveTo`.  The promise executor runs
synchronously: it stores the tween and sets the state to walking,
allocating the fresh handle `nextHandle` for the completion promise. -/
noncomputable def moveToFn (s : CState) (x y : ℝ) (duration : Option ℝ) : CState :=
  let distance := Real.sqrt ((x - s.x) ^ 2 + (y - s.y) ^ 2)
  let actualDuration :=
    match duration with
    | some v => v
    | none => min 2000 (max 500 (distance * 3))
  { s with
    movement :=
      { active := true, startX := s.x, startY := s.y, targetX := x, targetY := y,
        duration := actualDuration, elapsed := 0, resolve := some s.nextHandle }
    state := .walking
    nextHandle := s.nextHandle + 1 }

/-- Shallow embedding of `Character.updateWalkingAnimation`. -/
noncomputable def updateWalkingAnimation (s : CState) (deltaMs : ℝ) : CState :=
  if s.usingSpriteSheets = false ∨ s.state ≠ .walking then s
  else
    let wft := s.walkFrameTime + deltaMs
    if frameDuration ≤ wft then
      { s with
        walkFrameTime := 0
        currentWalkFrame := (s.currentWalkFrame + 1) % WALKING_FRAME_COUNT }
    else
      { s with walkFrameTime := wft }

/-- Shallow embedding of `Character.updateMovement` (called with the tick
delta in seconds): advances the tween clock, eases the position with the
cubic ease-out, updates depth, recomputes the facing direction from the
start-to-target vector, advances the walking frame, and on
`progress >= 1` completes the tween, resolving the pending promise. -/
noncomputable def updateMovement (iso : Bool) (s : CState) (delta : ℝ) : CState :=
  let deltaMs := delta * 1000
  let elapsed := s.movement.elapsed + deltaMs
  let progress := min 1 (elapsed / s.movement.duration)
  let eased := 1 - (1 - progress) ^ 3
  let x := s.movement.startX + (s.movement.targetX - s.movement.startX) * eased
  let y := s.movement.startY + (s.movement.targetY - s.movement.startY) * eased
  let dx := s.movement.targetX - s.movement.startX
  let dy := s.movement.targetY - s.movement.startY
  let s1 : CState :=
    { s with
      movement := { s.movement with elapsed := elapsed }
      x := x
      y := y
      zIndex := updateDepth iso y
      direction := calculateDirection iso s.direction dx dy }
  let s2 := updateWalkingAnimation s1 deltaMs
  if 1 ≤ progress then
    { s2 with
      movement := { s2.movement with active := false, resolve := none }
      state := .idle
      currentWalkFrame := 0
      walkFrameTime := 0
      resolved := s2.resolved ++
        (match s2.movement.resolve with
         | some h => [h]
         | none => []) }
  else s2

/-- Shallow embedding of the per-frame `update` callback (`delta` is
`ticker.deltaMS / 1000`).  `applyAnimations` only moves the sprite
container inside the entity container, so it is invisible here. -/
noncomputable def tickFn (iso : Bool) (s : CState) (delta : ℝ) : CState :=
  let s1 := { s with animationTime := s.animationTime + delta }
  if s1.movement.active then updateMovement iso s1 delta else s1

/-- Shallow embedding of the `state` setter (it only swaps the sprite
texture besides storing the value). -/
def setStateFn (s : CState) (v : AnimState) : CState := { s with state := v }

/-- Shallow embedding of the `direction` setter. -/
def setDirectionFn (s : CState) (v : Dir) : CState := { s with direction := v }

/-- Shallow embedding of `teleportTo` (also covers the base-class
position setters, which write the container position and update depth). -/
noncomputable def teleportToFn (iso : Bool) (s : CState) (x y : ℝ) : CState :=
  { s with x := x, y := y, zIndex := updateDepth iso y }

/-- A freshly constructed character: idle, facing south, no active tween,
frame 0; the constructor places the container at the spawn position. -/
noncomputable def initState (iso : Bool) (x y : ℝ) (uss : Bool) : CState :=
  { state := .idle
    direction := .south
    x := x
    y := y
    zIndex := updateDepth iso y
    movement :=
      { active := false, startX := 0, startY := 0, targetX := 0, targetY := 0,
        duration := 0, elapsed := 0, resolve := none }
    currentWalkFrame := 0
    walkFrameTime := 0
    animationTime := 0
    usingSpriteSheets := uss
    nextHandle := 0
    resolved := [] }

/-- One public operation on a character.  Explicit durations are required
positive (JavaScript would divide by zero into `Infinity` otherwise,
which `ℝ` cannot express), and tick deltas are positive as PixiJS
guarantees. -/
inductive Step (iso : Bool) : CState → CState → Prop where
  | moveTo (s : CState) (x y : ℝ) (d : Option ℝ) (hd : ∀ v ∈ d, 0 < v) :
      Step iso s (moveToFn s x y d)
  | tick (s : CState) (delta : ℝ) (hd : 0 < delta) :
      Step iso s (tickFn iso s delta)
  | setAnim (s : CState) (v : AnimState) : Step iso s (setStateFn s v)
  | setFacing (s : CState) (v : Dir) : Step iso s (setDirectionFn s v)
  | teleport (s : CState) (x y : ℝ) : Step iso s (teleportToFn iso s x y)

/-- States reachable from a freshly constructed character through the
public operations. -/
inductive Reach (iso : Bool) : CState → Prop where
  | init (x y : ℝ) (uss : Bool) : Reach iso (initState iso x y uss)
  | step {s t : CState} : Reach iso s → Step iso s t → Reach iso t

/-- The movement-only operations (`moveTo` and the per-tick update),
without the raw animation-state setter. -/
inductive CoreStep (iso : Bool) : CState → CState → Prop where
  | moveTo (s : CState) (x y : ℝ) (d : Option ℝ) (hd : ∀ v ∈ d, 0 < v) :
      CoreStep iso s (moveToFn s x y d)
  | tick (s : CState) (delta : ℝ) (hd : 0 < delta) :
      CoreStep iso s (tickFn iso s delta)

/-- States reachable through `moveTo` and ticks alone. -/
inductive ReachCore (iso : Bool) : CState → Prop where
  | init (x y : ℝ) (uss : Bool) : ReachCore iso (initState iso x y uss)
  | step {s t : CState} : ReachCore iso s → CoreStep iso s t → ReachCore iso t

/-! ## Helper lemmas about the character machine -/

lemma updateWalkingAnimation_proj (s : CState) (dm : ℝ) :
    (updateWalkingAnimation s dm).movement = s.movement ∧
    (updateWalkingAnimation s dm).state = s.state ∧
    (updateWalkingAnimation s dm).direction = s.direction ∧
    (updateWalkingAnimation s dm).x = s.x ∧
    (updateWalkingAnimation s dm).y = s.y ∧
    (updateWalkingAnimation s dm).nextHandle = s.nextHandle ∧
    (updateWalkingAnimation s dm).resolved = s.resolved := by
  by_cases h1 : s.usingSpriteSheets = false ∨ s.state ≠ .walking
  · simp [updateWalkingAnimation, h1]
  · by_cases h2 : frameDuration ≤ s.walkFrameTime + dm
    · simp [updateWalkingAnimation, h1, h2]
    · simp [updateWalkingAnimation, h1, h2]

lemma moveToFn_proj (s : CState) (x y : ℝ) (d : Option ℝ) :
    (moveToFn s x y d).movement.active = true ∧
    (moveToFn s x y d).movement.startX = s.x ∧
    (moveToFn s x y d).movement.startY = s.y ∧
    (moveToFn s x y d).movement.targetX = x ∧
    (moveToFn s x y d).movement.targetY = y ∧
    (moveToFn s x y d).movement.elapsed = 0 ∧
    (moveToFn s x y d).movement.resolve = some s.nextHandle ∧
    (moveToFn s x y d).state = .walking ∧
    (moveToFn s x y d).nextHandle = s.nextHandle + 1 ∧
    (moveToFn s x y d).resolved = s.resolved :=
  ⟨rfl, rfl, rfl, rfl, rfl, rfl, rfl, rfl, rfl, rfl⟩

lemma moveToFn_duration_pos (s : CState) (x y : ℝ) (d : Option ℝ)
    (hd : ∀ v ∈ d, 0 < v) :
    0 < (moveToFn s x y d).movement.duration := by
  cases d with
  | none =>
      show (0 : ℝ) < min 2000 (max 500 (Real.sqrt ((x - s.x) ^ 2 + (y - s.y) ^ 2) * 3))
      refine lt_min (by norm_num) (lt_of_lt_of_le ?_ (le_max_left _ _))
      norm_num
  | some v =>
      exact hd v rfl

lemma tickFn_active (iso : Bool) (s : CState) (delta : ℝ)
    (h : s.movement.active = true) :
    tickFn iso s delta =
      updateMovement iso { s with animationTime := s.animationTime + delta } delta := by
  simp [tickFn, h]

lemma tickFn_inactive (iso : Bool) (s : CState) (delta : ℝ)
    (h : s.movement.active = false) :
    tickFn iso s delta = { s with animationTime := s.animationTime + delta } := by
  simp [tickFn, h]

lemma updateMovement_completes (iso : Bool) (s : CState) (delta : ℝ)
    (h : 1 ≤ min 1 ((s.movement.elapsed + delta * 1000) / s.movement.duration)) :
    (updateMovement iso s delta).movement.active = false ∧
    (updateMovement iso s delta).movement.resolve = none ∧
    (updateMovement iso s delta).state = .idle ∧
    (updateMovement iso s delta).currentWalkFrame = 0 ∧
    (updateMovement iso s delta).nextHandle = s.nextHandle ∧
    (updateMovement iso s delta).resolved = s.resolved ++
      (match s.movement.resolve with
       | some h0 => [h0]
       | none => []) := by
  obtain ⟨hm, _, _, _, _, hn, hres⟩ :=
    updateWalkingAnimation_proj
      { s with
        movement := { s.movement with
          elapsed := s.movement.elapsed + delta * 1000 }
        x := s.movement.startX + (s.movement.targetX - s.movement.startX) *
          (1 - (1 - min 1 ((s.movement.elapsed + delta * 1000) / s.movement.duration)) ^ 3)
        y := s.movement.startY + (s.movement.targetY - s.movement.startY) *
          (1 - (1 - min 1 ((s.movement.elapsed + delta * 1000) / s.movement.duration)) ^ 3)
        zIndex := updateDepth iso (s.movement.startY +
          (s.movement.targetY - s.movement.startY) *
          (1 - (1 - min 1 ((s.movement.elapsed + delta * 1000) / s.movement.duration)) ^ 3))
        direction := calculateDirection iso s.direction
          (s.movement.targetX - s.movement.startX)
          (s.movement.targetY - s.movement.startY) }
      (delta * 1000)
  simp only [updateMovement, if_pos h]
  refine ⟨trivial, trivial, trivial, trivial, ?_, ?_⟩
  · exact hn
  · rw [hres, hm]

lemma updateMovement_continues (iso : Bool) (s : CState) (delta : ℝ)
    (h : ¬ 1 ≤ min 1 ((s.movement.elapsed + delta * 1000) / s.movement.duration)) :
    (updateMovement iso s delta).movement.active = s.movement.active ∧
    (updateMovement iso s delta).movement.resolve = s.movement.resolve ∧
    (updateMovement iso s delta).movement.duration = s.movement.duration ∧
    (updateMovement iso s delta).movement.elapsed =
      s.movement.elapsed + delta * 1000 ∧
    (updateMovement iso s delta).state = s.state ∧
    (updateMovement iso s delta).nextHandle = s.nextHandle ∧
    (updateMovement iso s delta).resolved = s.resolved := by
  obtain ⟨hm, hst, _, _, _, hn, hres⟩ :=
    updateWalkingAnimation_proj
      { s with
        movement := { s.movement with
          elapsed := s.movement.elapsed + delta * 1000 }
        x := s.movement.startX + (s.movement.targetX - s.movement.startX) *
          (1 - (1 - min 1 ((s.movement.elapsed + delta * 1000) / s.movement.duration)) ^ 3)
        y := s.movement.startY + (s.movement.targetY - s.movement.startY) *
          (1 - (1 - min 1 ((s.movement.elapsed + delta * 1000) / s.movement.duration)) ^ 3)
        zIndex := updateDepth iso (s.movement.startY +
          (s.movement.targetY - s.movement.startY) *
          (1 - (1 - min 1 ((s.movement.elapsed + delta * 1000) / s.movement.duration)) ^ 3))
        direction := calculateDirection iso s.direction
          (s.movement.targetX - s.movement.startX)
          (s.movement.targetY - s.movement.startY) }
      (delta * 1000)
  simp only [updateMovement, if_neg h]
  rw [hm, hst, hn, hres]
  exact ⟨rfl, rfl, rfl, rfl, rfl, rfl, rfl⟩

lemma updateMovement_pos (iso : Bool) (s : CState) (delta : ℝ) :
    (updateMovement iso s delta).x =
      s.movement.startX + (s.movement.targetX - s.movement.startX) *
        (1 - (1 - min 1 ((s.movement.elapsed + delta * 1000) / s.movement.duration)) ^ 3) ∧
    (updateMovement iso s delta).y =
      s.movement.startY + (s.movement.targetY - s.movement.startY) *
        (1 - (1 - min 1 ((s.movement.elapsed + delta * 1000) / s.movement.duration)) ^ 3) ∧
    (updateMovement iso s delta).direction =
      calculateDirection iso s.direction (s.movement.targetX - s.movement.startX)
        (s.movement.targetY - s.movement.startY) := by
  obtain ⟨_, _, hdir, hx, hy, _, _⟩ :=
    updateWalkingAnimation_proj
      { s with
        movement := { s.movement with
          elapsed := s.movement.elapsed + delta * 1000 }
        x := s.movement.startX + (s.movement.targetX - s.movement.startX) *
          (1 - (1 - min 1 ((s.movement.elapsed + delta * 1000) / s.movement.duration)) ^ 3)
        y := s.movement.startY + (s.movement.targetY - s.movement.startY) *
          (1 - (1 - min 1 ((s.movement.elapsed + delta * 1000) / s.movement.duration)) ^ 3)
        zIndex := updateDepth iso (s.movement.startY +
          (s.movement.targetY - s.movement.startY) *
          (1 - (1 - min 1 ((s.movement.elapsed + delta * 1000) / s.movement.duration)) ^ 3))
        direction := calculateDirection iso s.direction
          (s.movement.targetX - s.movement.startX)
          (s.movement.targetY - s.movement.startY) }
      (delta * 1000)
  simp only [updateMovement]
  split_ifs
  · exact ⟨hx, hy, hdir⟩
  · exact ⟨hx, hy, hdir⟩

/-! ## Promise-handle invariants -/

/-- Bookkeeping invariant: the pending handle is fresh and unresolved,
every resolved handle was allocated, and an active tween has positive
duration. -/
def HandleInv (s : CState) : Prop :=
  (∀ h : ℕ, s.movement.resolve = some h → h ∉ s.resolved ∧ h < s.nextHandle) ∧
  (∀ h ∈ s.resolved, h < s.nextHandle) ∧
  (s.movement.active = true → 0 < s.movement.duration)

lemma handleInv_init (iso : Bool) (x y : ℝ) (uss : Bool) :
    HandleInv (initState iso x y uss) := by
  refine ⟨?_, ?_, ?_⟩ <;> simp [initState]

lemma handleInv_step {iso : Bool} {s t : CState}
    (hi : HandleInv s) (hst : Step iso s t) : HandleInv t := by
  obtain ⟨h1, h2, h3⟩ := hi
  cases hst with
  | moveTo x y d hd =>
      refine ⟨?_, ?_, ?_⟩
      · intro h hres
        rw [(moveToFn_proj s x y d).2.2.2.2.2.2.1] at hres
        have hh : h = s.nextHandle := by
          exact (Option.some_inj.mp hres).symm
        subst hh
        rw [(moveToFn_proj s x y d).2.2.2.2.2.2.2.2.2,
          (moveToFn_proj s x y d).2.2.2.2.2.2.2.2.1]
        constructor
        · intro hmem
          exact absurd (h2 _ hmem) (lt_irrefl _)
        · omega
      · intro h hmem
        rw [(moveToFn_proj s x y d).2.2.2.2.2.2.2.2.2] at hmem
        rw [(moveToFn_proj s x y d).2.2.2.2.2.2.2.2.1]
        exact lt_trans (h2 _ hmem) (by omega)
      · intro _
        exact moveToFn_duration_pos s x y d hd
  | tick delta hd =>
      cases hact : s.movement.active with
      | false =>
          rw [tickFn_inactive iso s delta hact]
          exact ⟨h1, h2, h3⟩
      | true =>
          rw [tickFn_active iso s delta hact]
          set s1 : CState := { s with animationTime := s.animationTime + delta } with hs1
          by_cases hc : 1 ≤ min 1 ((s1.movement.elapsed + delta * 1000) / s1.movement.duration)
          · obtain ⟨ha, hr, hst2, hf, hn, hres⟩ := updateMovement_completes iso s1 delta hc
            refine ⟨?_, ?_, ?_⟩
            · intro h hres2
              rw [hr] at hres2
              exact absurd hres2 (by simp)
            · intro h hmem
              rw [hres] at hmem
              rw [hn]
              rcases List.mem_append.mp hmem with hmem | hmem
              · exact h2 _ hmem
              · cases hre : s.movement.resolve with
                | none => rw [hre] at hmem; simp at hmem
                | some h0 =>
                    rw [hre] at hmem
                    simp only [List.mem_singleton] at hmem
                    subst hmem
                    exact (h1 _ hre).2
            · intro hact2
              rw [ha] at hact2
              exact absurd hact2 (by simp)
          · obtain ⟨ha, hr, hdur, hel, hst2, hn, hres⟩ :=
              updateMovement_continues iso s1 delta hc
            refine ⟨?_, ?_, ?_⟩
            · intro h hres2
              rw [hr] at hres2
              rw [hres, hn]
              exact h1 _ hres2
            · intro h hmem
              rw [hres] at hmem
              rw [hn]
              exact h2 _ hmem
            · intro _
              rw [hdur]
              exact h3 hact
  | setAnim v => exact ⟨h1, h2, h3⟩
  | setFacing v => exact ⟨h1, h2, h3⟩
  | teleport x y => exact ⟨h1, h2, h3⟩

lemma reach_handleInv {iso : Bool} {s : CState} (h : Reach iso s) : HandleInv s := by
  induction h with
  | init x y uss => exact handleInv_init iso x y uss
  | step hr hst ih => exact handleInv_step ih hst

/-- A handle that is not pending and below the allocation counter can
never be resolved by any further operation. -/
def NeverMore (h : ℕ) (s : CState) : Prop :=
  s.movement.resolve ≠ some h ∧ h < s.nextHandle

lemma neverMore_step {iso : Bool} {h : ℕ} {s t : CState}
    (hnm : NeverMore h s) (hst : Step iso s t) :
    NeverMore h t ∧ t.resolved.count h = s.resolved.count h := by
  obtain ⟨hr, hn⟩ := hnm
  cases hst with
  | moveTo x y d hd =>
      refine ⟨⟨?_, ?_⟩, ?_⟩
      · rw [(moveToFn_proj s x y d).2.2.2.2.2.2.1]
        intro hc
        have := Option.some_inj.mp hc
        omega
      · rw [(moveToFn_proj s x y d).2.2.2.2.2.2.2.2.1]
        omega
      · rw [(moveToFn_proj s x y d).2.2.2.2.2.2.2.2.2]
  | tick delta hd =>
      cases hact : s.movement.active with
      | false =>
          rw [tickFn_inactive iso s delta hact]
          exact ⟨⟨hr, hn⟩, rfl⟩
      | true =>
          rw [tickFn_active iso s delta hact]
          set s1 : CState := { s with animationTime := s.animationTime + delta } with hs1
          by_cases hc : 1 ≤ min 1 ((s1.movement.elapsed + delta * 1000) / s1.movement.duration)
          · obtain ⟨ha, hrr, hst2, hf, hnn, hres⟩ := updateMovement_completes iso s1 delta hc
            refine ⟨⟨?_, ?_⟩, ?_⟩
            · rw [hrr]
              simp
            · rw [hnn]
              exact hn
            · rw [hres]
              cases hre : s.movement.resolve with
              | none =>
                  simp
              | some h0 =>
                  have hne : h ≠ h0 := by
                    intro he
                    subst he
                    exact hr hre
                  rw [List.count_append]
                  simp [List.count_cons, hne]
          · obtain ⟨ha, hrr, hdur, hel, hst2, hnn, hres⟩ :=
              updateMovement_continues iso s1 delta hc
            refine ⟨⟨?_, ?_⟩, ?_⟩
            · rw [hrr]
              exact hr
            · rw [hnn]
              exact hn
            · rw [hres]
  | setAnim v => exact ⟨⟨hr, hn⟩, rfl⟩
  | setFacing v => exact ⟨⟨hr, hn⟩, rfl⟩
  | teleport x y => exact ⟨⟨hr, hn⟩, rfl⟩

lemma neverMore_star {iso : Bool} {h : ℕ} {s t : CState}
    (hnm : NeverMore h s) (hst : Relation.ReflTransGen (Step iso) s t) :
    NeverMore h t ∧ t.resolved.count h = s.resolved.count h := by
  induction hst with
  | refl => exact ⟨hnm, rfl⟩
  | tail hab hbc ih =>
      obtain ⟨hnm2, hcount⟩ := ih
      obtain ⟨hnm3, hcount2⟩ := neverMore_step hnm2 hbc
      exact ⟨hnm3, hcount2.trans hcount⟩

/-! ## C2: the tween/state invariant -/

/-- C2 counterexample: the public `state` setter can assign `walking`
without starting a tween, so the reachable state it produces has no
active tween while `animationState = walking`, refuting the claimed
iff for the operation set that includes the setter. -/
theorem C2_counterexample :
    Reach true (setStateFn (initState true 0 0 false) AnimState.walking) ∧
    ¬ ((setStateFn (initState true 0 0 false) AnimState.walking).movement.active = true ↔
        (setStateFn (initState true 0 0 false) AnimState.walking).state = AnimState.walking) :=
  ⟨Reach.step (Reach.init 0 0 false) (Step.setAnim _ AnimState.walking), by
    simp [setStateFn, initState]⟩

/-- C2 (amended): restricted to the movement operations — `moveTo` and
the per-tick update, without the raw `animationState` setter — every
reachable character state has an active tween iff its animation state is
`walking`. -/
theorem C2_tween_iff_walking (iso : Bool) (s : CState) (hre : ReachCore iso s) :
    s.movement.active = true ↔ s.state = AnimState.walking := by
  induction hre with
  | init x y uss => simp [initState]
  | @step a b hr hst ih =>
      cases hst with
      | moveTo x y d hd =>
          rw [(moveToFn_proj a x y d).1, (moveToFn_proj a x y d).2.2.2.2.2.2.2.1]
          simp
      | tick delta hd =>
          cases hact : a.movement.active with
          | false =>
              rw [tickFn_inactive iso a delta hact]
              exact ih
          | true =>
              rw [tickFn_active iso a delta hact]
              by_cases hc : 1 ≤ min 1 ((a.movement.elapsed + delta * 1000) / a.movement.duration)
              · obtain ⟨ha, hrr, hst2, _, _, _⟩ :=
                  updateMovement_completes iso
                    { a with animationTime := a.animationTime + delta } delta hc
                rw [ha, hst2]
                simp
              · obtain ⟨ha, _, _, _, hst2, _, _⟩ :=
                  updateMovement_continues iso
                    { a with animationTime := a.animationTime + delta } delta hc
                rw [ha, hst2]
                exact ih

/-- Helper fact for witnesses: the explicit duration 1000 is positive. -/
lemma pos1000 : ∀ v ∈ (some (1000 : ℝ)), 0 < v := by
  intro v hv
  simp only [Option.mem_def, Option.some.injEq] at hv
  subst hv
  norm_num

/-- A concrete reachable mid-walk state: a fresh character told to move
to screen position (100, 0) over 1000 ms. -/
noncomputable def walkState (iso : Bool) : CState :=
  moveToFn (initState iso 0 0 false) 100 0 (some 1000)

/-- C2 witness: the amended invariant evaluated on the concrete mid-walk
state (both sides of the iff hold). -/
theorem C2_witness :
    (walkState true).movement.active = true ↔
      (walkState true).state = AnimState.walking :=
  C2_tween_iff_walking true (walkState true)
    (ReachCore.step (ReachCore.init 0 0 false)
      (CoreStep.moveTo (initState true 0 0 false) 100 0 (some 1000) pos1000))

/-! ## C4: tween completion resolves exactly once -/

lemma updateMovement_completes_resolved (iso : Bool) (s : CState) (delta : ℝ) (h0 : ℕ)
    (hprog : 1 ≤ min 1 ((s.movement.elapsed + delta * 1000) / s.movement.duration))
    (hres : s.movement.resolve = some h0) :
    (updateMovement iso s delta).resolved = s.resolved ++ [h0] := by
  have h := (updateMovement_completes iso s delta hprog).2.2.2.2.2
  rw [hres] at h
  exact h

/-- C4: on the first tick whose progress reaches 1, a reachable character
with an active tween and pending completion handle becomes idle, clears
the tween, resets the walking frame to 0, resolves the handle exactly
once, and the handle is never resolved again by any later operations. -/
theorem C4_tween_completion (iso : Bool) (s : CState) (h : ℕ) (delta : ℝ)
    (hre : Reach iso s)
    (hact : s.movement.active = true)
    (hres : s.movement.resolve = some h)
    (hdelta : 0 < delta)
    (hcomp : s.movement.duration ≤ s.movement.elapsed + delta * 1000) :
    (tickFn iso s delta).state = AnimState.idle ∧
    (tickFn iso s delta).movement.active = false ∧
    (tickFn iso s delta).movement.resolve = none ∧
    (tickFn iso s delta).currentWalkFrame = 0 ∧
    (tickFn iso s delta).resolved.count h = 1 ∧
    (∀ t : CState, Relation.ReflTransGen (Step iso) (tickFn iso s delta) t →
      t.resolved.count h = 1) := by
  obtain ⟨hi1, hi2, hi3⟩ := reach_handleInv hre
  have hfresh := hi1 h hres
  have hdur : 0 < s.movement.duration := hi3 hact
  have hprog : 1 ≤ min 1 ((s.movement.elapsed + delta * 1000) / s.movement.duration) :=
    le_min le_rfl ((one_le_div hdur).mpr hcomp)
  rw [tickFn_active iso s delta hact]
  obtain ⟨ha, hrr, hst2, hf, hnn, _⟩ :=
    updateMovement_completes iso { s with animationTime := s.animationTime + delta } delta hprog
  have hresolved :
      (updateMovement iso { s with animationTime := s.animationTime + delta } delta).resolved =
        s.resolved ++ [h] :=
    updateMovement_completes_resolved iso _ delta h hprog hres
  have hcount :
      (updateMovement iso { s with animationTime := s.animationTime + delta } delta).resolved.count
        h = 1 := by
    rw [hresolved, List.count_append, List.count_eq_zero.mpr hfresh.1]
    simp
  have hnm : NeverMore h
      (updateMovement iso { s with animationTime := s.animationTime + delta } delta) := by
    constructor
    · rw [hrr]
      simp
    · rw [hnn]
      exact hfresh.2
  refine ⟨hst2, ha, hrr, hf, hcount, ?_⟩
  intro t htr
  have := (neverMore_star hnm htr).2
  rw [hcount] at this
  exact this

/-- C4 witness: the mid-walk state ticked for one second (progress 1):
idle, tween cleared, frame 0, handle 0 resolved once, and still exactly
once in every future state. -/
theorem C4_witness :
    (tickFn true (walkState true) 1).state = AnimState.idle ∧
    (tickFn true (walkState true) 1).movement.active = false ∧
    (tickFn true (walkState true) 1).movement.resolve = none ∧
    (tickFn true (walkState true) 1).currentWalkFrame = 0 ∧
    (tickFn true (walkState true) 1).resolved.count 0 = 1 ∧
    (∀ t : CState, Relation.ReflTransGen (Step true) (tickFn true (walkState true) 1) t →
      t.resolved.count 0 = 1) :=
  C4_tween_completion true (walkState true) 0 1
    (Reach.step (Reach.init 0 0 false)
      (Step.moveTo (initState true 0 0 false) 100 0 (some 1000) pos1000))
    rfl rfl (by norm_num)
    (by show (1000 : ℝ) ≤ 0 + 1 * 1000; norm_num)

/-! ## C5: a superseding moveTo orphans the previous handle -/

/-- C5: issuing a second `moveTo` while a tween is active overwrites the
whole internal tween record (new start, target, clock and handle), and
the pending handle of the overwritten tween is never resolved in any
subsequent reachable state. -/
theorem C5_orphaned_handle (iso : Bool) (s : CState) (h1 : ℕ) (x y : ℝ) (d : Option ℝ)
    (hre : Reach iso s)
    (hact : s.movement.active = true)
    (hres : s.movement.resolve = some h1)
    (hd : ∀ v ∈ d, 0 < v) :
    (moveToFn s x y d).movement.active = true ∧
    (moveToFn s x y d).movement.startX = s.x ∧
    (moveToFn s x y d).movement.startY = s.y ∧
    (moveToFn s x y d).movement.targetX = x ∧
    (moveToFn s x y d).movement.targetY = y ∧
    (moveToFn s x y d).movement.elapsed = 0 ∧
    (moveToFn s x y d).movement.resolve ≠ some h1 ∧
    (∀ t : CState, Relation.ReflTransGen (Step iso) (moveToFn s x y d) t →
      h1 ∉ t.resolved) := by
  obtain ⟨hi1, hi2, hi3⟩ := reach_handleInv hre
  have hfresh := hi1 h1 hres
  have hnew : (moveToFn s x y d).movement.resolve ≠ some h1 := by
    rw [(moveToFn_proj s x y d).2.2.2.2.2.2.1]
    intro hcon
    have := Option.some_inj.mp hcon
    omega
  have hnm : NeverMore h1 (moveToFn s x y d) := by
    refine ⟨hnew, ?_⟩
    rw [(moveToFn_proj s x y d).2.2.2.2.2.2.2.2.1]
    omega
  have hcount0 : (moveToFn s x y d).resolved.count h1 = 0 := by
    rw [(moveToFn_proj s x y d).2.2.2.2.2.2.2.2.2]
    exact List.count_eq_zero.mpr hfresh.1
  refine ⟨(moveToFn_proj s x y d).1, (moveToFn_proj s x y d).2.1,
    (moveToFn_proj s x y d).2.2.1, (moveToFn_proj s x y d).2.2.2.1,
    (moveToFn_proj s x y d).2.2.2.2.1, (moveToFn_proj s x y d).2.2.2.2.2.1,
    hnew, ?_⟩
  intro t htr
  have := (neverMore_star hnm htr).2
  rw [hcount0] at this
  exact List.count_eq_zero.mp this

/-- C5 witness: a second `moveTo` issued on the concrete mid-walk state;
its tween record is overwritten and handle 0 is orphaned forever. -/
theorem C5_witness :
    (moveToFn (walkState true) 200 50 none).movement.active = true ∧
    (moveToFn (walkState true) 200 50 none).movement.startX = (walkState true).x ∧
    (moveToFn (walkState true) 200 50 none).movement.startY = (walkState true).y ∧
    (moveToFn (walkState true) 200 50 none).movement.targetX = 200 ∧
    (moveToFn (walkState true) 200 50 none).movement.targetY = 50 ∧
    (moveToFn (walkState true) 200 50 none).movement.elapsed = 0 ∧
    (moveToFn (walkState true) 200 50 none).movement.resolve ≠ some 0 ∧
    (∀ t : CState,
      Relation.ReflTransGen (Step true) (moveToFn (walkState true) 200 50 none) t →
      0 ∉ t.resolved) :=
  C5_orphaned_handle true (walkState true) 0 200 50 none
    (Reach.step (Reach.init 0 0 false)
      (Step.moveTo (initState true 0 0 false) 100 0 (some 1000) pos1000))
    rfl rfl (by simp)

/-! ## C3: facing direction tracks the per-tick movement vector

During one tween the position moves along the straight segment from
start to target with strictly increasing eased progress, so the
displacement of each tick is a positive multiple of the start-to-target
vector.  Direction selection only depends on the direction of the
vector, so the facing the code recomputes each tick from the
start-to-target vector equals the direction of that tick's instantaneous
movement vector. -/

lemma mul_pair_eq_zero_iff (c dx dy : ℝ) (hc : 0 < c) :
    (c * dx = 0 ∧ c * dy = 0) ↔ (dx = 0 ∧ dy = 0) := by
  have hcne : c ≠ 0 := ne_of_gt hc
  constructor
  · rintro ⟨ha, hb⟩
    constructor
    · rcases mul_eq_zero.mp ha with h | h
      · exact absurd h hcne
      · exact h
    · rcases mul_eq_zero.mp hb with h | h
      · exact absurd h hcne
      · exact h
  · rintro ⟨ha, hb⟩
    exact ⟨by rw [ha, mul_zero], by rw [hb, mul_zero]⟩

lemma getDirectionFromDelta_smul (c dx dy : ℝ) (hc : 0 < c) :
    getDirectionFromDelta (c * dx) (c * dy) = getDirectionFromDelta dx dy := by
  have harg : atan2 (c * dy) (c * dx) = atan2 dy dx := by
    unfold atan2
    have hmul : (⟨c * dx, c * dy⟩ : ℂ) = (c : ℂ) * ⟨dx, dy⟩ := by
      apply Complex.ext
      · simp [Complex.mul_re]
      · simp [Complex.mul_im]
    rw [hmul, Complex.arg_real_mul _ hc]
  unfold getDirectionFromDelta
  simp only [mul_pair_eq_zero_iff c dx dy hc, harg]

lemma calculateDirection_smul (iso : Bool) (cur : Dir) (c dx dy : ℝ) (hc : 0 < c) :
    calculateDirection iso cur (c * dx) (c * dy) = calculateDirection iso cur dx dy := by
  have habs : (|c * dx| > |c * dy|) ↔ (|dx| > |dy|) := by
    rw [abs_mul, abs_mul, abs_of_pos hc]
    exact mul_lt_mul_left hc
  have hxp : (c * dx > 0) ↔ (dx > 0) := mul_pos_iff_of_pos_left hc
  have hyp : (c * dy > 0) ↔ (dy > 0) := mul_pos_iff_of_pos_left hc
  unfold calculateDirection
  simp only [mul_pair_eq_zero_iff c dx dy hc, habs, hxp, hyp,
    getDirectionFromDelta_smul c dx dy hc]

/-- C3: during an active tween, each tick recomputes the facing direction
and the new facing equals the direction selected from the instantaneous
movement vector of that tick (the displacement the tick produces), which
is moreover nonzero.  The position-consistency hypotheses say the current
position lies on the tween path, as every tick and `moveTo` maintain. -/
theorem C3_direction_per_tick (iso : Bool) (s : CState) (delta : ℝ)
    (hact : s.movement.active = true)
    (hdelta : 0 < delta)
    (hdur : 0 < s.movement.duration)
    (hel : s.movement.elapsed < s.movement.duration)
    (hx : s.x = s.movement.startX + (s.movement.targetX - s.movement.startX) *
      (1 - (1 - min 1 (s.movement.elapsed / s.movement.duration)) ^ 3))
    (hy : s.y = s.movement.startY + (s.movement.targetY - s.movement.startY) *
      (1 - (1 - min 1 (s.movement.elapsed / s.movement.duration)) ^ 3))
    (hne : ¬ (s.movement.targetX = s.movement.startX ∧
        s.movement.targetY = s.movement.startY)) :
    ¬ ((tickFn iso s delta).x - s.x = 0 ∧ (tickFn iso s delta).y - s.y = 0) ∧
    (tickFn iso s delta).direction =
      calculateDirection iso s.direction
        ((tickFn iso s delta).x - s.x) ((tickFn iso s delta).y - s.y) := by
  rw [tickFn_active iso s delta hact]
  obtain ⟨hux, huy, hudir⟩ :=
    updateMovement_pos iso { s with animationTime := s.animationTime + delta } delta
  have hux2 : (updateMovement iso { s with animationTime := s.animationTime + delta } delta).x =
      s.movement.startX + (s.movement.targetX - s.movement.startX) *
        (1 - (1 - min 1 ((s.movement.elapsed + delta * 1000) / s.movement.duration)) ^ 3) := hux
  have huy2 : (updateMovement iso { s with animationTime := s.animationTime + delta } delta).y =
      s.movement.startY + (s.movement.targetY - s.movement.startY) *
        (1 - (1 - min 1 ((s.movement.elapsed + delta * 1000) / s.movement.duration)) ^ 3) := huy
  have hudir2 :
      (updateMovement iso { s with animationTime := s.animationTime + delta } delta).direction =
      calculateDirection iso s.direction (s.movement.targetX - s.movement.startX)
        (s.movement.targetY - s.movement.startY) := hudir
  have hq1 : s.movement.elapsed / s.movement.duration < 1 := (div_lt_one hdur).mpr hel
  have hqlt : s.movement.elapsed / s.movement.duration <
      (s.movement.elapsed + delta * 1000) / s.movement.duration := by
    refine (div_lt_div_iff_of_pos_right hdur).mpr ?_
    have : 0 < delta * 1000 := by positivity
    linarith
  have hplt : min 1 (s.movement.elapsed / s.movement.duration) <
      min 1 ((s.movement.elapsed + delta * 1000) / s.movement.duration) := by
    rw [min_eq_right (le_of_lt hq1)]
    rcases le_or_lt ((s.movement.elapsed + delta * 1000) / s.movement.duration) 1 with hle | hlt
    · rw [min_eq_right hle]
      exact hqlt
    · rw [min_eq_left (le_of_lt hlt)]
      exact hq1
  set p1 := min 1 (s.movement.elapsed / s.movement.duration) with hp1
  set p2 := min 1 ((s.movement.elapsed + delta * 1000) / s.movement.duration) with hp2
  have hcc : 0 < (1 - p1) ^ 3 - (1 - p2) ^ 3 := by
    have hmono : StrictMono (fun a : ℝ => a ^ 3) := Odd.strictMono_pow ⟨1, by norm_num⟩
    have := hmono (show (1 : ℝ) - p2 < 1 - p1 by linarith)
    simp only at this
    linarith
  have hdiffx :
      (updateMovement iso { s with animationTime := s.animationTime + delta } delta).x - s.x =
      (s.movement.targetX - s.movement.startX) * ((1 - p1) ^ 3 - (1 - p2) ^ 3) := by
    rw [hux2, hx]
    ring
  have hdiffy :
      (updateMovement iso { s with animationTime := s.animationTime + delta } delta).y - s.y =
      (s.movement.targetY - s.movement.startY) * ((1 - p1) ^ 3 - (1 - p2) ^ 3) := by
    rw [huy2, hy]
    ring
  constructor
  · rintro ⟨hA, hB⟩
    rw [hdiffx] at hA
    rw [hdiffy] at hB
    apply hne
    constructor
    · rcases mul_eq_zero.mp hA with h | h
      · exact sub_eq_zero.mp h
      · exact absurd h (ne_of_gt hcc)
    · rcases mul_eq_zero.mp hB with h | h
      · exact sub_eq_zero.mp h
      · exact absurd h (ne_of_gt hcc)
  · rw [hudir2, hdiffx, hdiffy,
      mul_comm (s.movement.targetX - s.movement.startX) ((1 - p1) ^ 3 - (1 - p2) ^ 3),
      mul_comm (s.movement.targetY - s.movement.startY) ((1 - p1) ^ 3 - (1 - p2) ^ 3),
      calculateDirection_smul iso s.direction ((1 - p1) ^ 3 - (1 - p2) ^ 3)
        (s.movement.targetX - s.movement.startX) (s.movement.targetY - s.movement.startY) hcc]

/-- C3 witness: the 4-way mid-walk state ticked by a quarter second: the
tick moves the character and the new facing equals the direction of that
tick's displacement. -/
theorem C3_witness :
    ¬ ((tickFn false (walkState false) (1 / 4)).x - (walkState false).x = 0 ∧
        (tickFn false (walkState false) (1 / 4)).y - (walkState false).y = 0) ∧
    (tickFn false (walkState false) (1 / 4)).direction =
      calculateDirection false (walkState false).direction
        ((tickFn false (walkState false) (1 / 4)).x - (walkState false).x)
        ((tickFn false (walkState false) (1 / 4)).y - (walkState false).y) :=
  C3_direction_per_tick false (walkState false) (1 / 4) rfl (by norm_num)
    (by show (0 : ℝ) < 1000; norm_num)
    (by show (0 : ℝ) < 1000; norm_num)
    (by
      show (0 : ℝ) = 0 + (100 - 0) * (1 - (1 - min 1 ((0 : ℝ) / 1000)) ^ 3)
      rw [zero_div, min_eq_right (by norm_num : (0 : ℝ) ≤ 1)]
      norm_num)
    (by
      show (0 : ℝ) = 0 + (0 - 0) * (1 - (1 - min 1 ((0 : ℝ) / 1000)) ^ 3)
      norm_num)
    (by
      show ¬ ((100 : ℝ) = 0 ∧ (0 : ℝ) = 0)
      norm_num)

/-! ## C6: automatic tween duration -/

/-- Clamp as the specification phrases it: `clamp(x, lo, hi)`. -/
noncomputable def specClamp (x lo hi : ℝ) : ℝ := max lo (min x hi)

/-- C6: a `moveTo` without explicit duration gets the clamped duration
`clamp(distance * 3, 500, 2000)` where distance is the Euclidean screen
distance from the current position to the target; in particular a move
of screen distance 100 (from (0,0) to (100,0)) gets 500 ms. -/
theorem C6_moveTo_auto_duration :
    (∀ (s : CState) (x y : ℝ),
      (moveToFn s x y none).movement.duration =
        specClamp (Real.sqrt ((x - s.x) ^ 2 + (y - s.y) ^ 2) * 3) 500 2000) ∧
    (moveToFn (initState true 0 0 false) 100 0 none).movement.duration = 500 := by
  constructor
  · intro s x y
    show min 2000 (max 500 (Real.sqrt ((x - s.x) ^ 2 + (y - s.y) ^ 2) * 3)) =
      specClamp (Real.sqrt ((x - s.x) ^ 2 + (y - s.y) ^ 2) * 3) 500 2000
    unfold specClamp
    generalize Real.sqrt ((x - s.x) ^ 2 + (y - s.y) ^ 2) * 3 = v
    rcases le_total v 500 with h5 | h5
    · rw [max_eq_left h5, min_eq_right (by norm_num : (500 : ℝ) ≤ 2000),
        min_eq_left (le_trans h5 (by norm_num)), max_eq_left h5]
    · rcases le_total v 2000 with h2 | h2
      · rw [max_eq_right h5, min_eq_right h2, min_eq_left h2, max_eq_right h5]
      · rw [max_eq_right h5, min_eq_left h2, min_eq_right h2,
          max_eq_right (by norm_num : (500 : ℝ) ≤ 2000)]
  · show min 2000 (max 500 (Real.sqrt (((100 : ℝ) - 0) ^ 2 + ((0 : ℝ) - 0) ^ 2) * 3)) = 500
    have hs : Real.sqrt (((100 : ℝ) - 0) ^ 2 + ((0 : ℝ) - 0) ^ 2) = 100 := by
      rw [show ((100 : ℝ) - 0) ^ 2 + ((0 : ℝ) - 0) ^ 2 = 100 ^ 2 by norm_num]
      exact Real.sqrt_sq (by norm_num)
    rw [hs, show (100 : ℝ) * 3 = 300 by norm_num,
      max_eq_left (by norm_num : (300 : ℝ) ≤ 500),
      min_eq_right (by norm_num : (500 : ℝ) ≤ 2000)]
